import Mathlib

/-
Verification of the tracktime Stopwatch engine.

Shallow embedding of the Stopwatch class (the timer/measurement engine).
Clock time-points and nanosecond deltas are modeled as `Int` (the Node
`process.hrtime.bigint` branch: exact integer nanoseconds).  Each stateful
operation takes the clock readings it performs as explicit `Int` arguments,
in the order the source performs them.  Wall-clock timestamps (`new Date()`)
are likewise passed explicitly and stored as `Int`.

JavaScript behaviors reproduced faithfully:
  - `Math.floor(x / c)` on integers is `Int.fdiv` (floor division);
  - the JS `%` operator on integers is `Int.tmod` (truncated remainder);
  - `name || default` normalizes the empty string (falsy) to the default
    timer; the default timer's key is a private Symbol, modeled as `none`
    in a map keyed by `Option String` (public names are `some s`);
  - code paths that throw a TypeError (dereferencing `null`/`undefined`)
    are modeled as `Except.error`.
-/

/-- Model of JavaScript `String.prototype.trim`: drop whitespace from both
ends (structural recursion over the character list). -/
def jsTrim (s : String) : String :=
  String.mk
    (((s.toList.dropWhile Char.isWhitespace).reverse.dropWhile
        Char.isWhitespace).reverse)

/-- Model of JavaScript `String.prototype.toLowerCase`: lowercase each
character. -/
def jsToLower (s : String) : String :=
  String.mk (s.toList.map Char.toLower)

/-- One entry pushed into a timer's `history` array, field for field in the
order the source object literal lists them. -/
structure MeasurementRecord where
  timer : String
  label : String
  elapsed : Int
  total : Int
  seconds : Int
  milliseconds : Int
  nanoseconds : Int
  timestamp : Int
deriving Repr, DecidableEq

/-- The duration object returned by `measure` (and, after mutation, by
`stop`).  The lazily computed getters `display_total`, `display_ms`,
`display_ns`, `display_seconds` are derived on demand from the listed
fields and are not stored; no claim refers to them, so they are omitted. -/
structure Duration where
  timer : String
  label : String
  seconds : Int
  milliseconds : Int
  nanoseconds : Int
  elapsed : Int
  total : Int
  display : String
  timestamp : Int
deriving Repr, DecidableEq

/-- Per-timer state: the base time-point (`hrtime`) and the history array. -/
structure TimerState where
  hrtime : Int
  history : List MeasurementRecord
deriving Repr, DecidableEq

/-- The timers `Map`.  Key `none` is the private `Symbol('default')`;
`some s` is a caller-supplied string name.  Insertion order is kept, as in
a JS `Map`. -/
abbrev TimerMap := List (Option String × TimerState)

/-- `Map.get`: first entry with the given key, or `undefined` (`none`). -/
def mapGet : TimerMap → Option String → Option TimerState
  | [], _ => none
  | (k, v) :: rest, key => if k = key then some v else mapGet rest key

/-- `Map.set`: replace the value of an existing key in place, else append. -/
def mapSet : TimerMap → Option String → TimerState → TimerMap
  | [], key, v => [(key, v)]
  | (k, w) :: rest, key, v =>
    if k = key then (k, v) :: rest else (k, w) :: mapSet rest key v

/-- `Map.has`. -/
def mapHas (m : TimerMap) (key : Option String) : Bool :=
  (mapGet m key).isSome

/-- `Map.delete`: remove the entry with the given key, if present. -/
def mapDelete : TimerMap → Option String → TimerMap
  | [], _ => []
  | (k, v) :: rest, key =>
    if k = key then rest else (k, v) :: mapDelete rest key

/-- The Stopwatch instance: its `#name` and its `#timers` map. -/
structure Stopwatch where
  name : String
  timers : TimerMap
deriving Repr, DecidableEq

/-- `name || this.#default`: a falsy name (null, or the empty string)
resolves to the default timer's key. -/
def resolveKey (name : Option String) : Option String :=
  match name with
  | none => none
  | some s => if s = "" then none else some s

/-- `name || 'system_default'`: the `timer` field stored on records. -/
def timerKeyName (name : Option String) : String :=
  match name with
  | none => "system_default"
  | some s => if s = "" then "system_default" else s

/-- The generated label
`(name === null ? 'System Default' : name) + ' measurement ' + (len + 1)`. -/
def defaultLabel (name : Option String) (len : Nat) : String :=
  (match name with
   | none => "System Default"
   | some s => s) ++ " measurement " ++ toString (len + 1)

/-- `label || <generated>`: a falsy label (null or empty) is replaced by the
generated one. -/
def effLabel (label name : Option String) (len : Nat) : String :=
  match label with
  | none => defaultLabel name len
  | some l => if l = "" then defaultLabel name len else l

/-- The `display` expression of `measure` (and of the `display_total`
getter): zero-valued seconds/milliseconds segments contribute a lone space,
a zero nanoseconds segment contributes the empty string, then the whole
string is trimmed at both ends only. -/
def displayStr (sec ms ns : Int) : String :=
  jsTrim
    ((if sec ≠ 0 then toString sec ++ "s " else " ")
      ++ (if ms ≠ 0 then toString ms ++ "ms " else " ")
      ++ (if ns ≠ 0 then toString ns ++ "ns" else ""))

/-- `constructor (name = null)`: `#name = name || 'Unknown TrackTime'`, and
the timers map starts with the default timer at a fresh reading `t0`. -/
def Stopwatch.create (name : Option String) (t0 : Int) : Stopwatch :=
  ⟨(match name with
    | none => "Unknown TrackTime"
    | some s => if s = "" then "Unknown TrackTime" else s),
   [(none, ⟨t0, []⟩)]⟩

/-- Decomposition of `parse (int)`. -/
structure ParsedTime where
  seconds : Int
  milliseconds : Int
  nanoseconds : Int
deriving Repr, DecidableEq

/-- `parse (int)`: `seconds = Math.floor(int / 1e9)`;
`milliseconds = Math.floor((int - seconds*1e9) / 1e6)`;
`nanoseconds = int - seconds*1e9 - milliseconds*1e6`. -/
def Stopwatch.parse (int : Int) : ParsedTime :=
  let seconds := int.fdiv 1000000000
  let milliseconds := (int - seconds * 1000000000).fdiv 1000000
  let nanoseconds := int - seconds * 1000000000 - milliseconds * 1000000
  ⟨seconds, milliseconds, nanoseconds⟩

/-- `start (name = null)`: set a fresh state (new base reading `t`, empty
history) under the resolved key. -/
def Stopwatch.start (sw : Stopwatch) (name : Option String) (t : Int) :
    Stopwatch :=
  ⟨sw.name, mapSet sw.timers (resolveKey name) ⟨t, []⟩⟩

/-- `measure (label = null, name = null)`.  Clock readings, in source
order: `ts` is the `new Date()` wall clock; `t1` the reading inside
`#hrtime(prev)` that yields the delta `t1 - prev`; `t2` the fresh
`#hrtime()` the base is reset to.  Returns `none` (null) when the resolved
timer does not exist; otherwise the duration object and the updated
stopwatch.  The bigint delta is split as
`[Math.floor(Number(d)/1e9), Math.round(Number(d) % 1e9)]` (round is the
identity on integers), then `elapsed = seconds*1e9 + hr1`,
`ms = Math.floor(hr1/1e6)`, `ns = hr1 % 1e6`, and
`total = history.length === 0 ? elapsed : last.total + elapsed`. -/
def Stopwatch.measure (sw : Stopwatch) (label name : Option String)
    (ts t1 t2 : Int) : Option (Duration × Stopwatch) :=
  match mapGet sw.timers (resolveKey name) with
  | none => none
  | some timer =>
    let lab := effLabel label name timer.history.length
    let delta := t1 - timer.hrtime
    let hr0 := delta.fdiv 1000000000
    let hr1 := delta.tmod 1000000000
    let seconds := hr0
    let elapsed := seconds * 1000000000 + hr1
    let ms := hr1.fdiv 1000000
    let ns := hr1.tmod 1000000
    let total :=
      match timer.history.getLast? with
      | none => elapsed
      | some last => last.total + elapsed
    let r : MeasurementRecord :=
      ⟨timerKeyName name, lab, elapsed, total, seconds, ms, ns, ts⟩
    some (⟨timerKeyName name, lab, seconds, ms, ns, elapsed, total,
           displayStr hr0 ms ns, ts⟩,
          ⟨sw.name, mapSet sw.timers (resolveKey name)
             ⟨t2, timer.history ++ [r]⟩⟩)

/-- `remove (name = null)`: with no name, restart the default timer (fresh
reading `t`); with a name, delete that raw key if present, else no-op. -/
def Stopwatch.remove (sw : Stopwatch) (name : Option String) (t : Int) :
    Stopwatch :=
  match name with
  | none => sw.start none t
  | some n =>
    if mapHas sw.timers (some n) then ⟨sw.name, mapDelete sw.timers (some n)⟩
    else sw

/-- `stop (name = null)`: `measure('stop', name)`, then
`parse(result.total)` — which throws a TypeError when `measure` returned
null (modeled as `Except.error`) — then overwrite the result's
seconds/milliseconds/nanoseconds with the decomposition of the total, set
`elapsed = total`, and `remove(name)` (whose default-reset takes one more
fresh reading `t3`). -/
def Stopwatch.stop (sw : Stopwatch) (name : Option String)
    (ts t1 t2 t3 : Int) : Except String (Duration × Stopwatch) :=
  match sw.measure (some "stop") name ts t1 t2 with
  | none => Except.error "TypeError"
  | some (result, sw1) =>
    let total := Stopwatch.parse result.total
    Except.ok ({ result with
                  seconds := total.seconds,
                  milliseconds := total.milliseconds,
                  nanoseconds := total.nanoseconds,
                  elapsed := result.total },
               sw1.remove name t3)

/-- `history (name = null)`: the source reads
`timer === null ? [] : timer.history`, but `Map.get` yields `undefined`
(never `null`) for a missing key, so the check never fires and
`timer.history` throws a TypeError on a missing timer (modeled as
`Except.error`). -/
def Stopwatch.history (sw : Stopwatch) (name : Option String) :
    Except String (List MeasurementRecord) :=
  match mapGet sw.timers (resolveKey name) with
  | some timer => Except.ok timer.history
  | none => Except.error "TypeError"

/-- `historyLabel (label = null, name = null)`: null label gives null;
missing timer (`!timer`, and `undefined` is falsy) gives null; otherwise
filter by trimmed, lowercased label equality and return the first match or
null. -/
def Stopwatch.historyLabel (sw : Stopwatch) (label name : Option String) :
    Option MeasurementRecord :=
  match label with
  | none => none
  | some lab =>
    match mapGet sw.timers (resolveKey name) with
    | none => none
    | some timer =>
      (timer.history.filter
        (fun item =>
          jsToLower (jsTrim item.label) == jsToLower (jsTrim lab))).head?

/-- The display construction as the specification words it: each
zero-valued component is skipped outright (contributes nothing), then the
result is trimmed.  Stated only for comparison against `displayStr`. -/
def specDisplay (sec ms ns : Int) : String :=
  jsTrim
    ((if sec ≠ 0 then toString sec ++ "s " else "")
      ++ (if ms ≠ 0 then toString ms ++ "ms " else "")
      ++ (if ns ≠ 0 then toString ns ++ "ns" else ""))

/-- States reachable from a freshly constructed stopwatch by the public
state-changing operations, with arbitrary clock readings. -/
inductive Reach : Stopwatch → Prop where
  | init : ∀ (name : Option String) (t0 : Int), Reach (Stopwatch.create name t0)
  | step_start : ∀ (sw : Stopwatch) (name : Option String) (t : Int),
      Reach sw → Reach (sw.start name t)
  | step_remove : ∀ (sw : Stopwatch) (name : Option String) (t : Int),
      Reach sw → Reach (sw.remove name t)
  | step_measure : ∀ (sw : Stopwatch) (label name : Option String)
      (ts t1 t2 : Int) (d : Duration) (sw2 : Stopwatch),
      Reach sw → sw.measure label name ts t1 t2 = some (d, sw2) → Reach sw2
  | step_stop : ∀ (sw : Stopwatch) (name : Option String)
      (ts t1 t2 t3 : Int) (d : Duration) (sw2 : Stopwatch),
      Reach sw → sw.stop name ts t1 t2 t3 = Except.ok (d, sw2) → Reach sw2

/-! ### Association-map lemmas -/

theorem mapGet_mapSet_self (m : TimerMap) (k : Option String) (v : TimerState) :
    mapGet (mapSet m k v) k = some v := by
  induction m with
  | nil => simp [mapSet, mapGet]
  | cons a rest ih =>
    obtain ⟨k0, v0⟩ := a
    by_cases h : k0 = k
    · simp [mapSet, h, mapGet]
    · simp [mapSet, h, mapGet, ih]

theorem mapGet_mapSet_ne (m : TimerMap) (k q : Option String) (v : TimerState)
    (h : q ≠ k) : mapGet (mapSet m k v) q = mapGet m q := by
  have hkq : k ≠ q := fun hh => h hh.symm
  induction m with
  | nil => simp [mapSet, mapGet, hkq]
  | cons a rest ih =>
    obtain ⟨k0, v0⟩ := a
    by_cases h0 : k0 = k
    · subst h0
      simp [mapSet, mapGet, hkq]
    · simp [mapSet, mapGet, h0, ih]

theorem mapGet_mapDelete_ne (m : TimerMap) (k q : Option String)
    (h : q ≠ k) : mapGet (mapDelete m k) q = mapGet m q := by
  have hkq : k ≠ q := fun hh => h hh.symm
  induction m with
  | nil => simp [mapDelete]
  | cons a rest ih =>
    obtain ⟨k0, v0⟩ := a
    by_cases h0 : k0 = k
    · subst h0
      simp [mapDelete, mapGet, hkq]
    · simp [mapDelete, mapGet, h0, ih]

theorem mapGet_mem (m : TimerMap) (k : Option String) (t : TimerState)
    (h : mapGet m k = some t) : (k, t) ∈ m := by
  induction m with
  | nil => simp [mapGet] at h
  | cons a rest ih =>
    obtain ⟨k0, v0⟩ := a
    by_cases h0 : k0 = k
    · subst h0
      simp [mapGet] at h
      simp [h]
    · simp [mapGet, h0] at h
      simp [ih h]

theorem mem_mapSet (m : TimerMap) (k : Option String) (v : TimerState)
    (p : Option String × TimerState) (h : p ∈ mapSet m k v) :
    p ∈ m ∨ p = (k, v) := by
  induction m with
  | nil =>
    simp [mapSet] at h
    simp [h]
  | cons a rest ih =>
    obtain ⟨k0, v0⟩ := a
    by_cases h0 : k0 = k
    · subst h0
      simp [mapSet] at h
      rcases h with h | h
      · simp [h]
      · simp [h]
    · simp [mapSet, h0] at h
      rcases h with h | h
      · simp [h]
      · rcases ih h with h1 | h1
        · simp [h1]
        · simp [h1]

theorem mem_mapDelete (m : TimerMap) (k : Option String)
    (p : Option String × TimerState) (h : p ∈ mapDelete m k) : p ∈ m := by
  induction m with
  | nil => simp [mapDelete] at h
  | cons a rest ih =>
    obtain ⟨k0, v0⟩ := a
    by_cases h0 : k0 = k
    · subst h0
      simp [mapDelete] at h
      simp [h]
    · simp [mapDelete, h0] at h
      rcases h with h | h
      · simp [h]
      · simp [ih h]

/-- Keys of the map, in order. -/
def mapKeys (m : TimerMap) : List (Option String) := m.map Prod.fst

/-- The map's keys are pairwise distinct. -/
def keysNodup (m : TimerMap) : Prop := (mapKeys m).Nodup

theorem mapGet_eq_none_of_not_mem (m : TimerMap) (k : Option String)
    (h : k ∉ mapKeys m) : mapGet m k = none := by
  induction m with
  | nil => rfl
  | cons a rest ih =>
    obtain ⟨k0, v0⟩ := a
    rw [show mapKeys ((k0, v0) :: rest) = k0 :: mapKeys rest from rfl,
      List.mem_cons, not_or] at h
    have h1 : ¬ k0 = k := fun hh => h.1 hh.symm
    simp [mapGet, h1, ih h.2]

theorem mem_mapKeys_mapSet (m : TimerMap) (k q : Option String) (v : TimerState)
    (h : q ∈ mapKeys (mapSet m k v)) : q ∈ mapKeys m ∨ q = k := by
  induction m with
  | nil =>
    simp [mapSet, mapKeys] at h
    simp [h]
  | cons a rest ih =>
    obtain ⟨k0, v0⟩ := a
    by_cases h0 : k0 = k
    · subst h0
      have e : mapSet ((k0, v0) :: rest) k0 v = (k0, v) :: rest := by
        simp [mapSet]
      rw [e, show mapKeys ((k0, v) :: rest) = k0 :: mapKeys rest from rfl,
        List.mem_cons] at h
      rw [show mapKeys ((k0, v0) :: rest) = k0 :: mapKeys rest from rfl]
      rcases h with h | h
      · exact Or.inr h
      · exact Or.inl (List.mem_cons_of_mem k0 h)
    · have e : mapSet ((k0, v0) :: rest) k v = (k0, v0) :: mapSet rest k v := by
        simp [mapSet, h0]
      rw [e, show mapKeys ((k0, v0) :: mapSet rest k v)
            = k0 :: mapKeys (mapSet rest k v) from rfl, List.mem_cons] at h
      rw [show mapKeys ((k0, v0) :: rest) = k0 :: mapKeys rest from rfl]
      rcases h with h | h
      · exact Or.inl (by rw [h]; exact List.mem_cons_self k0 (mapKeys rest))
      · rcases ih h with h1 | h1
        · exact Or.inl (List.mem_cons_of_mem k0 h1)
        · exact Or.inr h1

theorem keysNodup_mapSet (m : TimerMap) (k : Option String) (v : TimerState)
    (h : keysNodup m) : keysNodup (mapSet m k v) := by
  induction m with
  | nil => simp [mapSet, keysNodup, mapKeys]
  | cons a rest ih =>
    obtain ⟨k0, v0⟩ := a
    rw [keysNodup, show mapKeys ((k0, v0) :: rest) = k0 :: mapKeys rest from rfl,
      List.nodup_cons] at h
    by_cases h0 : k0 = k
    · subst h0
      have e : mapSet ((k0, v0) :: rest) k0 v = (k0, v) :: rest := by
        simp [mapSet]
      rw [e, keysNodup,
        show mapKeys ((k0, v) :: rest) = k0 :: mapKeys rest from rfl,
        List.nodup_cons]
      exact h
    · have e : mapSet ((k0, v0) :: rest) k v = (k0, v0) :: mapSet rest k v := by
        simp [mapSet, h0]
      rw [e, keysNodup, show mapKeys ((k0, v0) :: mapSet rest k v)
            = k0 :: mapKeys (mapSet rest k v) from rfl, List.nodup_cons]
      refine ⟨fun hq => ?_, ih h.2⟩
      rcases mem_mapKeys_mapSet rest k k0 v hq with h1 | h1
      · exact h.1 h1
      · exact h0 h1

theorem mapKeys_mapDelete_sublist (m : TimerMap) (k : Option String) :
    (mapKeys (mapDelete m k)).Sublist (mapKeys m) := by
  induction m with
  | nil => simp [mapDelete]
  | cons a rest ih =>
    obtain ⟨k0, v0⟩ := a
    by_cases h0 : k0 = k
    · subst h0
      simp only [mapDelete, if_pos rfl, mapKeys, List.map_cons]
      exact List.sublist_cons_self _ _
    · simp only [mapDelete, if_neg h0, mapKeys, List.map_cons]
      exact ih.cons₂ _

theorem keysNodup_mapDelete (m : TimerMap) (k : Option String)
    (h : keysNodup m) : keysNodup (mapDelete m k) :=
  (mapKeys_mapDelete_sublist m k).nodup h

theorem mapGet_mapDelete_self (m : TimerMap) (k : Option String)
    (h : keysNodup m) : mapGet (mapDelete m k) k = none := by
  induction m with
  | nil => rfl
  | cons a rest ih =>
    obtain ⟨k0, v0⟩ := a
    simp only [keysNodup, mapKeys, List.map_cons, List.nodup_cons] at h
    by_cases h0 : k0 = k
    · subst h0
      simp only [mapDelete, if_pos rfl]
      exact mapGet_eq_none_of_not_mem rest k0 h.1
    · simp only [mapDelete, if_neg h0, mapGet, if_neg h0]
      exact ih h.2

/-! ### The running-total invariant -/

/-- `totalsOK acc l`: scanning `l` in order, each record's `total` is the
previous total (starting from `acc`) plus that record's `elapsed`. -/
def totalsOK : Int → List MeasurementRecord → Prop
  | _, [] => True
  | acc, r :: rest => r.total = acc + r.elapsed ∧ totalsOK r.total rest

/-- The total stored on the last record of `l`, or `acc` when `l` is empty. -/
def lastTotal (acc : Int) (l : List MeasurementRecord) : Int :=
  match l.getLast? with
  | none => acc
  | some r => r.total

theorem lastTotal_cons (acc : Int) (a : MeasurementRecord)
    (l : List MeasurementRecord) : lastTotal acc (a :: l) = lastTotal a.total l := by
  cases l with
  | nil => rfl
  | cons b t => rfl

theorem totalsOK_append (acc : Int) (l : List MeasurementRecord)
    (r : MeasurementRecord) (hl : totalsOK acc l)
    (hr : r.total = lastTotal acc l + r.elapsed) :
    totalsOK acc (l ++ [r]) := by
  induction l generalizing acc with
  | nil =>
    refine ⟨?_, trivial⟩
    simpa [lastTotal] using hr
  | cons a t ih =>
    refine ⟨hl.1, ?_⟩
    exact ih a.total hl.2 (by rw [hr, lastTotal_cons])

theorem totalsOK_get (acc : Int) (l : List MeasurementRecord)
    (hl : totalsOK acc l) (i : Nat) (hi : i < l.length) :
    (l.get ⟨i, hi⟩).total
      = (if i = 0 then acc
         else (l.get ⟨i - 1, Nat.lt_of_le_of_lt (Nat.sub_le i 1) hi⟩).total)
        + (l.get ⟨i, hi⟩).elapsed := by
  induction l generalizing acc i with
  | nil => exact absurd hi (by simp)
  | cons a t ih =>
    cases i with
    | zero => simpa using hl.1
    | succ j =>
      have hj : j < t.length := Nat.lt_of_succ_lt_succ hi
      have step := ih a.total hl.2 j hj
      cases j with
      | zero => simpa using step
      | succ j2 =>
        have hj2 : j2 < t.length :=
          Nat.lt_of_le_of_lt (Nat.sub_le (j2 + 1) 1) hj
        simpa using step

/-! ### Characterization of `measure` and `stop` on success -/

theorem measure_some_spec (sw : Stopwatch) (label name : Option String)
    (ts t1 t2 : Int) (d : Duration) (sw2 : Stopwatch)
    (h : sw.measure label name ts t1 t2 = some (d, sw2)) :
    ∃ timer r,
      mapGet sw.timers (resolveKey name) = some timer
      ∧ sw2 = ⟨sw.name, mapSet sw.timers (resolveKey name)
                 ⟨t2, timer.history ++ [r]⟩⟩
      ∧ r.total = lastTotal 0 timer.history + r.elapsed
      ∧ d.label = effLabel label name timer.history.length
      ∧ d.total = r.total ∧ d.elapsed = r.elapsed := by
  cases hmg : mapGet sw.timers (resolveKey name) with
  | none => simp [Stopwatch.measure, hmg] at h
  | some timer =>
    simp only [Stopwatch.measure, hmg] at h
    obtain ⟨hd, hsw⟩ := Prod.mk.injEq .. ▸ Option.some.inj h
    refine ⟨timer, _, rfl, hsw.symm, ?_, ?_, ?_, ?_⟩
    · cases hLast : timer.history.getLast? with
      | none => simp [lastTotal, hLast]
      | some last => simp [lastTotal, hLast]
    · rw [← hd]
    · rw [← hd]
    · rw [← hd]

theorem stop_ok_spec (sw : Stopwatch) (name : Option String)
    (ts t1 t2 t3 : Int) (d : Duration) (sw2 : Stopwatch)
    (h : sw.stop name ts t1 t2 t3 = Except.ok (d, sw2)) :
    ∃ m sw1, sw.measure (some "stop") name ts t1 t2 = some (m, sw1)
      ∧ sw2 = sw1.remove name t3
      ∧ d = { m with seconds := (Stopwatch.parse m.total).seconds,
                     milliseconds := (Stopwatch.parse m.total).milliseconds,
                     nanoseconds := (Stopwatch.parse m.total).nanoseconds,
                     elapsed := m.total } := by
  cases hm : sw.measure (some "stop") name ts t1 t2 with
  | none => simp [Stopwatch.stop, hm] at h
  | some p =>
    obtain ⟨m, sw1⟩ := p
    simp only [Stopwatch.stop, hm] at h
    obtain ⟨hd, hsw⟩ := Prod.mk.injEq .. ▸ Except.ok.inj h
    exact ⟨m, sw1, rfl, hsw.symm, hd.symm⟩

/-! ### Small unfolding lemmas for `remove` -/

theorem remove_none_timers (sw : Stopwatch) (t : Int) :
    (sw.remove none t).timers = mapSet sw.timers none ⟨t, []⟩ := rfl

theorem remove_some_eq_pos (sw : Stopwatch) (n : String) (t : Int)
    (h : mapHas sw.timers (some n) = true) :
    sw.remove (some n) t = ⟨sw.name, mapDelete sw.timers (some n)⟩ := by
  simp [Stopwatch.remove, h]

theorem remove_some_eq_neg (sw : Stopwatch) (n : String) (t : Int)
    (h : ¬ mapHas sw.timers (some n) = true) :
    sw.remove (some n) t = sw := by
  simp [Stopwatch.remove, h]

theorem mapGet_remove_some (sw : Stopwatch) (n : String) (t : Int)
    (q : Option String) (hq : q ≠ some n) :
    mapGet (sw.remove (some n) t).timers q = mapGet sw.timers q := by
  by_cases h : mapHas sw.timers (some n) = true
  · rw [remove_some_eq_pos sw n t h]
    exact mapGet_mapDelete_ne sw.timers (some n) q hq
  · rw [remove_some_eq_neg sw n t h]

theorem isSome_mapGet_mapSet (m : TimerMap) (k q : Option String)
    (v : TimerState) (h : (mapGet m q).isSome = true) :
    (mapGet (mapSet m k v) q).isSome = true := by
  by_cases hk : q = k
  · subst hk
    rw [mapGet_mapSet_self]
    rfl
  · rw [mapGet_mapSet_ne m k q v hk]
    exact h

/-! ### Invariants of reachable stopwatch states -/

/-- The default timer exists in every reachable state. -/
theorem Reach_default_isSome (sw : Stopwatch) (h : Reach sw) :
    (mapGet sw.timers none).isSome = true := by
  induction h with
  | init name t0 => rfl
  | step_start sw name t hR ih =>
    exact isSome_mapGet_mapSet sw.timers (resolveKey name) none ⟨t, []⟩ ih
  | step_remove sw name t hR ih =>
    cases name with
    | none =>
      rw [remove_none_timers, mapGet_mapSet_self]
      rfl
    | some n =>
      rw [mapGet_remove_some sw n t none (by simp)]
      exact ih
  | step_measure sw label name ts t1 t2 d sw2 hR hm ih =>
    obtain ⟨timer, r, hget, hsw2, hrt, hlab, hdt, hde⟩ :=
      measure_some_spec sw label name ts t1 t2 d sw2 hm
    rw [hsw2]
    exact isSome_mapGet_mapSet sw.timers (resolveKey name) none _ ih
  | step_stop sw name ts t1 t2 t3 d sw2 hR hs ih =>
    obtain ⟨m, sw1, hm, hsw2, hd⟩ := stop_ok_spec sw name ts t1 t2 t3 d sw2 hs
    obtain ⟨timer, r, hget, hsw1, hrt, hlab, hdt, hde⟩ :=
      measure_some_spec sw (some "stop") name ts t1 t2 m sw1 hm
    have h1 : (mapGet sw1.timers none).isSome = true := by
      rw [hsw1]
      exact isSome_mapGet_mapSet sw.timers (resolveKey name) none _ ih
    rw [hsw2]
    cases name with
    | none =>
      rw [remove_none_timers, mapGet_mapSet_self]
      rfl
    | some n =>
      rw [mapGet_remove_some sw1 n t3 none (by simp)]
      exact h1

/-- Keys stay pairwise distinct in every reachable state. -/
theorem Reach_keysNodup (sw : Stopwatch) (h : Reach sw) :
    keysNodup sw.timers := by
  induction h with
  | init name t0 => simp [Stopwatch.create, keysNodup, mapKeys]
  | step_start sw name t hR ih =>
    exact keysNodup_mapSet sw.timers (resolveKey name) ⟨t, []⟩ ih
  | step_remove sw name t hR ih =>
    cases name with
    | none =>
      exact keysNodup_mapSet sw.timers none ⟨t, []⟩ ih
    | some n =>
      by_cases h2 : mapHas sw.timers (some n) = true
      · rw [remove_some_eq_pos sw n t h2]
        exact keysNodup_mapDelete sw.timers (some n) ih
      · rw [remove_some_eq_neg sw n t h2]
        exact ih
  | step_measure sw label name ts t1 t2 d sw2 hR hm ih =>
    obtain ⟨timer, r, hget, hsw2, hrt, hlab, hdt, hde⟩ :=
      measure_some_spec sw label name ts t1 t2 d sw2 hm
    rw [hsw2]
    exact keysNodup_mapSet sw.timers (resolveKey name) _ ih
  | step_stop sw name ts t1 t2 t3 d sw2 hR hs ih =>
    obtain ⟨m, sw1, hm, hsw2, hd⟩ := stop_ok_spec sw name ts t1 t2 t3 d sw2 hs
    obtain ⟨timer, r, hget, hsw1, hrt, hlab, hdt, hde⟩ :=
      measure_some_spec sw (some "stop") name ts t1 t2 m sw1 hm
    have h1 : keysNodup sw1.timers := by
      rw [hsw1]
      exact keysNodup_mapSet sw.timers (resolveKey name) _ ih
    rw [hsw2]
    cases name with
    | none =>
      exact keysNodup_mapSet sw1.timers none ⟨t3, []⟩ h1
    | some n =>
      by_cases h2 : mapHas sw1.timers (some n) = true
      · rw [remove_some_eq_pos sw1 n t3 h2]
        exact keysNodup_mapDelete sw1.timers (some n) h1
      · rw [remove_some_eq_neg sw1 n t3 h2]
        exact h1

/-- Every timer state stored in a reachable stopwatch satisfies the
running-total invariant from an initial total of 0. -/
theorem Reach_totalsOK (sw : Stopwatch) (h : Reach sw)
    (p : Option String × TimerState) (hp : p ∈ sw.timers) :
    totalsOK 0 p.2.history := by
  induction h generalizing p with
  | init name t0 =>
    simp [Stopwatch.create] at hp
    rw [hp]
    trivial
  | step_start sw name t hR ih =>
    rcases mem_mapSet sw.timers (resolveKey name) ⟨t, []⟩ p hp with h1 | h1
    · exact ih p h1
    · rw [h1]
      trivial
  | step_remove sw name t hR ih =>
    cases name with
    | none =>
      rcases mem_mapSet sw.timers none ⟨t, []⟩ p hp with h1 | h1
      · exact ih p h1
      · rw [h1]
        trivial
    | some n =>
      by_cases h2 : mapHas sw.timers (some n) = true
      · rw [remove_some_eq_pos sw n t h2] at hp
        exact ih p (mem_mapDelete sw.timers (some n) p hp)
      · rw [remove_some_eq_neg sw n t h2] at hp
        exact ih p hp
  | step_measure sw label name ts t1 t2 d sw2 hR hm ih =>
    obtain ⟨timer, r, hget, hsw2, hrt, hlab, hdt, hde⟩ :=
      measure_some_spec sw label name ts t1 t2 d sw2 hm
    rw [hsw2] at hp
    rcases mem_mapSet sw.timers (resolveKey name)
        ⟨t2, timer.history ++ [r]⟩ p hp with h1 | h1
    · exact ih p h1
    · rw [h1]
      exact totalsOK_append 0 timer.history r
        (ih (resolveKey name, timer) (mapGet_mem sw.timers (resolveKey name) timer hget))
        hrt
  | step_stop sw name ts t1 t2 t3 d sw2 hR hs ih =>
    obtain ⟨m, sw1, hm, hsw2, hd⟩ := stop_ok_spec sw name ts t1 t2 t3 d sw2 hs
    obtain ⟨timer, r, hget, hsw1, hrt, hlab, hdt, hde⟩ :=
      measure_some_spec sw (some "stop") name ts t1 t2 m sw1 hm
    have h1 : ∀ q, q ∈ sw1.timers → totalsOK 0 q.2.history := by
      intro q hq
      rw [hsw1] at hq
      rcases mem_mapSet sw.timers (resolveKey name)
          ⟨t2, timer.history ++ [r]⟩ q hq with hh | hh
      · exact ih q hh
      · rw [hh]
        exact totalsOK_append 0 timer.history r
          (ih (resolveKey name, timer)
            (mapGet_mem sw.timers (resolveKey name) timer hget))
          hrt
    rw [hsw2] at hp
    cases name with
    | none =>
      rcases mem_mapSet sw1.timers none ⟨t3, []⟩ p hp with hh | hh
      · exact h1 p hh
      · rw [hh]
        trivial
    | some n =>
      by_cases h2 : mapHas sw1.timers (some n) = true
      · rw [remove_some_eq_pos sw1 n t3 h2] at hp
        exact h1 p (mem_mapDelete sw1.timers (some n) p hp)
      · rw [remove_some_eq_neg sw1 n t3 h2] at hp
        exact h1 p hp

/-! ### Concrete runs used by witnesses and counterexamples -/

/-- Fallback duration value for total match coverage in the concrete runs. -/
def dur0 : Duration := ⟨"", "", 0, 0, 0, 0, 0, "", 0⟩

/-- A fresh stopwatch whose named timer `t` was started with base reading 0. -/
def swT : Stopwatch := (Stopwatch.create none 0).start (some "t") 0

theorem Reach_swT : Reach swT :=
  Reach.step_start (Stopwatch.create none 0) (some "t") 0 (Reach.init none 0)

/-- The stopwatch left behind by a first `stop('t')` on `swT`. -/
def swAfterFirstStop : Stopwatch :=
  match swT.stop (some "t") 0 1 2 3 with
  | Except.ok p => p.2
  | Except.error _ => swT

/-- `swT` after one intermediate measurement on timer `t` (base becomes 5,
one history record with elapsed 5, total 5). -/
def swC3 : Stopwatch :=
  match swT.measure none (some "t") 0 5 5 with
  | some p => p.2
  | none => swT

/-- The duration of that intermediate measurement. -/
def durT1 : Duration :=
  match swT.measure none (some "t") 0 5 5 with
  | some p => p.1
  | none => dur0

theorem Reach_swC3 : Reach swC3 :=
  Reach.step_measure swT none (some "t") 0 5 5 durT1 swC3 Reach_swT (by rfl)

/-- The final `measure('stop','t')` of the `stop` call on `swC3`. -/
def durC3 : Duration :=
  match swC3.measure (some "stop") (some "t") 0 8 9 with
  | some p => p.1
  | none => dur0

def swC3b : Stopwatch :=
  match swC3.measure (some "stop") (some "t") 0 8 9 with
  | some p => p.2
  | none => swC3

/-! ### The claims -/

/-- Claim C1: the claim says `stop(name)` returns `null` for a timer with no
state (never started, removed, or already stopped), in particular on a
second `stop` with no intervening `start`.  The code instead throws: `stop`
dereferences `result.total` on the `null` that `measure` returns for a
missing timer.  This theorem evaluates the code at the failing inputs: a
never-started name throws, and after a successful first `stop('t')` the
second `stop('t')` throws rather than returning null. -/
theorem C1_stop_missing_timer_throws :
    ((Stopwatch.create none 0).stop (some "t") 0 1 2 3
        = Except.error "TypeError")
  ∧ ((swT.stop (some "t") 0 1 2 3).toOption.isSome = true)
  ∧ (swAfterFirstStop.stop (some "t") 4 5 6 7 = Except.error "TypeError") :=
  ⟨rfl, rfl, rfl⟩

/-- Claim C2: the claim says `history(name)` returns an empty sequence for a
timer with no state.  The code instead throws: `Map.get` yields `undefined`
for a missing key, the guard `timer === null` never fires, and
`timer.history` dereferences `undefined`.  This theorem evaluates the code
at the failing input (and checks the default timer still answers). -/
theorem C2_history_missing_timer_throws :
    ((Stopwatch.create none 0).history (some "missing")
        = Except.error "TypeError")
  ∧ ((Stopwatch.create none 0).history none = Except.ok []) :=
  ⟨rfl, rfl⟩

/-- Claim C4: for every non-negative integer `n`, `parse n` decomposes it as
`n = seconds*1e9 + milliseconds*1e6 + nanoseconds` with
`0 ≤ milliseconds < 1000` and `0 ≤ nanoseconds < 1e6`. -/
theorem C4_parse_decomposition (n : Int) (hn : 0 ≤ n) :
    n = (Stopwatch.parse n).seconds * 1000000000
        + (Stopwatch.parse n).milliseconds * 1000000
        + (Stopwatch.parse n).nanoseconds
    ∧ 0 ≤ (Stopwatch.parse n).milliseconds
    ∧ (Stopwatch.parse n).milliseconds < 1000
    ∧ 0 ≤ (Stopwatch.parse n).nanoseconds
    ∧ (Stopwatch.parse n).nanoseconds < 1000000 := by
  simp only [Stopwatch.parse]
  rw [Int.fdiv_eq_ediv _ (by omega), Int.fdiv_eq_ediv _ (by omega)]
  omega

/-- Witness for C4 at the concrete input 1749023419 (1s 749ms 23419ns). -/
theorem C4_witness :
    0 ≤ (1749023419 : Int)
  ∧ ((1749023419 : Int)
        = (Stopwatch.parse 1749023419).seconds * 1000000000
          + (Stopwatch.parse 1749023419).milliseconds * 1000000
          + (Stopwatch.parse 1749023419).nanoseconds
      ∧ 0 ≤ (Stopwatch.parse 1749023419).milliseconds
      ∧ (Stopwatch.parse 1749023419).milliseconds < 1000
      ∧ 0 ≤ (Stopwatch.parse 1749023419).nanoseconds
      ∧ (Stopwatch.parse 1749023419).nanoseconds < 1000000) :=
  ⟨by decide, C4_parse_decomposition 1749023419 (by decide)⟩

theorem head_filter_eq_find (p : MeasurementRecord → Bool)
    (l : List MeasurementRecord) : (l.filter p).head? = l.find? p := by
  induction l with
  | nil => rfl
  | cons a t ih =>
    by_cases h : p a <;> simp [List.filter_cons, List.find?_cons, h, ih]

/-- Claim C7: `historyLabel label name` compares the supplied label against
each entry's label case-insensitively after trimming both sides, scans the
timer's history in chronological order and returns the first match; it
returns null when no label is supplied, no timer exists, or no entry
matches — all captured by this unconditional equation with `find?`. -/
theorem C7_historyLabel_first_match (sw : Stopwatch)
    (label name : Option String) :
    sw.historyLabel label name
      = label.bind (fun lab =>
          (mapGet sw.timers (resolveKey name)).bind (fun timer =>
            timer.history.find? (fun item =>
              jsToLower (jsTrim item.label) == jsToLower (jsTrim lab)))) := by
  cases label with
  | none => rfl
  | some lab =>
    cases hmg : mapGet sw.timers (resolveKey name) with
    | none => simp [Stopwatch.historyLabel, hmg]
    | some timer => simp [Stopwatch.historyLabel, hmg, head_filter_eq_find]

/-- Claim C3 counterexample: with one prior measurement on timer `t`
(elapsed 5, total 5) and a final delta of 3, `stop('t')` returns a record
whose `elapsed` field is 8 (the cumulative total), while the final
`measure('stop','t')` it wraps reports the true delta 3 — so `stop`'s
returned `elapsed` is not the nanoseconds since the previous measurement. -/
theorem C3_counterexample :
    ((swC3.stop (some "t") 0 8 9 0).toOption.map (fun p => p.1.elapsed)
        = some 8)
  ∧ ((swC3.measure (some "stop") (some "t") 0 8 9).map
        (fun p => p.1.elapsed) = some 3)
  ∧ (8 : Int) ≠ 3 :=
  ⟨rfl, rfl, by decide⟩

/-- Claim C3 as amended: for an existing named timer (nonempty name),
`stop` takes a final `measure` with label `"stop"`, but then rewrites the
returned record: `seconds`/`milliseconds`/`nanoseconds` become the `parse`
decomposition of the cumulative total and `elapsed` is set to the total
itself (not the delta since the previous measurement); the timer is then
deleted. -/
theorem C3_stop_total_overwrite (sw : Stopwatch) (hR : Reach sw) (s : String)
    (hs : s ≠ "") (ts t1 t2 t3 : Int) (m : Duration) (sw1 : Stopwatch)
    (hm : sw.measure (some "stop") (some s) ts t1 t2 = some (m, sw1)) :
    (sw.stop (some s) ts t1 t2 t3
      = Except.ok ({ m with
          seconds := (Stopwatch.parse m.total).seconds,
          milliseconds := (Stopwatch.parse m.total).milliseconds,
          nanoseconds := (Stopwatch.parse m.total).nanoseconds,
          elapsed := m.total }, sw1.remove (some s) t3))
  ∧ m.label = "stop"
  ∧ mapGet (sw1.remove (some s) t3).timers (some s) = none := by
  obtain ⟨timer, r, hget, hsw1, hrt, hlab, hdt, hde⟩ :=
    measure_some_spec sw (some "stop") (some s) ts t1 t2 m sw1 hm
  have hres : resolveKey (some s) = some s := by simp [resolveKey, hs]
  refine ⟨?_, ?_, ?_⟩
  · unfold Stopwatch.stop
    rw [hm]
  · rw [hlab]
    simp [effLabel]
  · have hRsw1 : Reach sw1 :=
      Reach.step_measure sw (some "stop") (some s) ts t1 t2 m sw1 hR hm
    have hNodup : keysNodup sw1.timers := Reach_keysNodup sw1 hRsw1
    have hin : mapGet sw1.timers (some s) = some ⟨t2, timer.history ++ [r]⟩ := by
      rw [hsw1]
      show mapGet (mapSet sw.timers (resolveKey (some s))
          ⟨t2, timer.history ++ [r]⟩) (some s) = _
      rw [hres]
      exact mapGet_mapSet_self sw.timers (some s) _
    have hHas : mapHas sw1.timers (some s) = true := by
      rw [mapHas, hin]
      rfl
    rw [remove_some_eq_pos sw1 s t3 hHas]
    show mapGet (mapDelete sw1.timers (some s)) (some s) = none
    exact mapGet_mapDelete_self sw1.timers (some s) hNodup

/-- Witness for C3's amended theorem at the concrete run behind the
counterexample. -/
theorem C3_witness :
    (swC3.stop (some "t") 0 8 9 0
      = Except.ok ({ durC3 with
          seconds := (Stopwatch.parse durC3.total).seconds,
          milliseconds := (Stopwatch.parse durC3.total).milliseconds,
          nanoseconds := (Stopwatch.parse durC3.total).nanoseconds,
          elapsed := durC3.total }, swC3b.remove (some "t") 0))
  ∧ durC3.label = "stop"
  ∧ mapGet (swC3b.remove (some "t") 0).timers (some "t") = none :=
  C3_stop_total_overwrite swC3 Reach_swC3 "t" (by decide) 0 8 9 0 durC3 swC3b
    (by rfl)

/-- Claim C5: in every reachable state, every history entry's `total` is the
previous entry's `total` (0 before the first entry) plus the entry's own
`elapsed`. -/
theorem C5_monotonic_accumulation (sw : Stopwatch) (hR : Reach sw)
    (key : Option String) (t : TimerState)
    (ht : mapGet sw.timers key = some t) (i : Nat)
    (hi : i < t.history.length) :
    (t.history.get ⟨i, hi⟩).total
      = (if i = 0 then 0
         else (t.history.get
            ⟨i - 1, Nat.lt_of_le_of_lt (Nat.sub_le i 1) hi⟩).total)
        + (t.history.get ⟨i, hi⟩).elapsed :=
  totalsOK_get 0 t.history
    (Reach_totalsOK sw hR (key, t) (mapGet_mem sw.timers key t ht)) i hi

/-- Default timer measured twice: after `measure` at delta 5 and again at
delta 4, the default timer's history holds two records. -/
def durC5a : Duration :=
  match (Stopwatch.create none 0).measure none none 0 5 5 with
  | some p => p.1
  | none => dur0

def swC5a : Stopwatch :=
  match (Stopwatch.create none 0).measure none none 0 5 5 with
  | some p => p.2
  | none => Stopwatch.create none 0

def durC5b : Duration :=
  match swC5a.measure none none 0 9 9 with
  | some p => p.1
  | none => dur0

def swC5b : Stopwatch :=
  match swC5a.measure none none 0 9 9 with
  | some p => p.2
  | none => swC5a

def tC5 : TimerState :=
  match mapGet swC5b.timers none with
  | some t => t
  | none => ⟨0, []⟩

theorem Reach_swC5b : Reach swC5b :=
  Reach.step_measure swC5a none none 0 9 9 durC5b swC5b
    (Reach.step_measure (Stopwatch.create none 0) none none 0 5 5 durC5a swC5a
      (Reach.init none 0) (by rfl))
    (by rfl)

/-- Witness for C5 at a concrete reachable state with a two-entry history,
checked at index 1. -/
theorem C5_witness :
    (tC5.history.get ⟨1, by decide⟩).total
      = (if (1 : Nat) = 0 then 0
         else (tC5.history.get ⟨1 - 1, by decide⟩).total)
        + (tC5.history.get ⟨1, by decide⟩).elapsed :=
  C5_monotonic_accumulation swC5b Reach_swC5b none tC5 (by rfl) 1 (by decide)

/-- Claim C6 counterexample: the claim says `stop` with *any* string name
cannot touch the default timer, but the empty string is falsy and
`name || default` resolves it to the default timer: `stop('')` on a fresh
stopwatch appends a `"stop"` record to the default timer's history (length
0 before, 1 after), mutating its state. -/
theorem C6_counterexample :
    ((mapGet (Stopwatch.create none 0).timers none).map
        (fun t => t.history.length) = some 0)
  ∧ (((Stopwatch.create none 0).stop (some "") 0 1 2 3).toOption.map
        (fun p => (mapGet p.2.timers none).map (fun t => t.history.length))
        = some (some 1)) :=
  ⟨rfl, rfl⟩

/-- Claim C6 as amended: in every reachable state the default timer exists;
`measure` on the default timer succeeds; `remove()` with no name resets the
default timer (fresh base, empty history) rather than removing it; and
`remove`/`stop` with any **nonempty** string name leave the default timer's
state unchanged (the empty-string name is normalized to the default timer
itself). -/
theorem C6_default_timer_indestructible (sw : Stopwatch) (hR : Reach sw)
    (s : String) (hs : s ≠ "") (label : Option String)
    (ts t1 t2 t3 t : Int) (d : Duration) (sw2 : Stopwatch)
    (hok : sw.stop (some s) ts t1 t2 t3 = Except.ok (d, sw2)) :
    ((mapGet sw.timers none).isSome = true)
  ∧ ((sw.measure label none ts t1 t2).isSome = true)
  ∧ (mapGet (sw.remove none t).timers none = some ⟨t, []⟩)
  ∧ (mapGet (sw.remove (some s) t).timers none = mapGet sw.timers none)
  ∧ (mapGet sw2.timers none = mapGet sw.timers none) := by
  have h1 := Reach_default_isSome sw hR
  refine ⟨h1, ?_, ?_, ?_, ?_⟩
  · cases htm : mapGet sw.timers none with
    | none =>
      rw [htm] at h1
      simp at h1
    | some tm => simp [Stopwatch.measure, resolveKey, htm]
  · rw [remove_none_timers, mapGet_mapSet_self]
  · exact mapGet_remove_some sw s t none (by simp)
  · obtain ⟨m, sw1, hm, hsw2, hd⟩ :=
      stop_ok_spec sw (some s) ts t1 t2 t3 d sw2 hok
    obtain ⟨timer, r, hget, hsw1, hrt, hlab, hdt, hde⟩ :=
      measure_some_spec sw (some "stop") (some s) ts t1 t2 m sw1 hm
    have hres : resolveKey (some s) = some s := by simp [resolveKey, hs]
    have e1 : mapGet sw1.timers none = mapGet sw.timers none := by
      rw [hsw1]
      show mapGet (mapSet sw.timers (resolveKey (some s))
          ⟨t2, timer.history ++ [r]⟩) none = mapGet sw.timers none
      rw [hres]
      exact mapGet_mapSet_ne sw.timers (some s) none _ (by simp)
    rw [hsw2, mapGet_remove_some sw1 s t3 none (by simp), e1]

/-- The result of `stop('t')` on `swT` (used by the C6 witness). -/
def durC6 : Duration :=
  match swT.stop (some "t") 0 1 2 3 with
  | Except.ok p => p.1
  | Except.error _ => dur0

def swC6b : Stopwatch :=
  match swT.stop (some "t") 0 1 2 3 with
  | Except.ok p => p.2
  | Except.error _ => swT

/-- Witness for C6's amended theorem on `swT` with name `t`. -/
theorem C6_witness :
    ((mapGet swT.timers none).isSome = true)
  ∧ ((swT.measure none none 0 1 2).isSome = true)
  ∧ (mapGet (swT.remove none 9).timers none = some ⟨9, []⟩)
  ∧ (mapGet (swT.remove (some "t") 9).timers none = mapGet swT.timers none)
  ∧ (mapGet swC6b.timers none = mapGet swT.timers none) :=
  C6_default_timer_indestructible swT Reach_swT "t" (by decide) none 0 1 2 3 9
    durC6 swC6b (by rfl)

/-- Claim C8 counterexample: for a measured record with seconds 1,
milliseconds 0, nanoseconds 7, the code's display is `"1s  7ns"` (the zero
milliseconds segment contributes a lone space, which survives as an
interior double space), while the claim's skip-zero construction gives
`"1s 7ns"`. -/
theorem C8_counterexample :
    (((Stopwatch.create none 0).measure none none 0 1000000007 9).map
        (fun p => p.1.display) = some "1s  7ns")
  ∧ (((Stopwatch.create none 0).measure none none 0 1000000007 9).map
        (fun p => specDisplay p.1.seconds p.1.milliseconds p.1.nanoseconds)
        = some "1s 7ns")
  ∧ ("1s  7ns" : String) ≠ "1s 7ns" :=
  ⟨rfl, rfl, by decide⟩

/-- Claim C8 as amended: every record returned by `measure` carries a
display string built by substituting a single space for a zero seconds or
milliseconds component (and the empty string for zero nanoseconds), then
trimming only the ends — so zero components are not skipped, and interior
double spaces remain. -/
theorem C8_display_single_space_padding (sw : Stopwatch)
    (label name : Option String) (ts t1 t2 : Int) (d : Duration)
    (sw2 : Stopwatch) (h : sw.measure label name ts t1 t2 = some (d, sw2)) :
    d.display = displayStr d.seconds d.milliseconds d.nanoseconds := by
  cases hmg : mapGet sw.timers (resolveKey name) with
  | none => simp [Stopwatch.measure, hmg] at h
  | some timer =>
    simp only [Stopwatch.measure, hmg] at h
    obtain ⟨hd, hsw⟩ := Prod.mk.injEq .. ▸ Option.some.inj h
    rw [← hd]

/-- The record measured in the C8 counterexample run. -/
def durC8 : Duration :=
  match (Stopwatch.create none 0).measure none none 0 1000000007 9 with
  | some p => p.1
  | none => dur0

def swC8b : Stopwatch :=
  match (Stopwatch.create none 0).measure none none 0 1000000007 9 with
  | some p => p.2
  | none => Stopwatch.create none 0

/-- Witness for C8's amended theorem at the counterexample's record. -/
theorem C8_witness :
    durC8.display = displayStr durC8.seconds durC8.milliseconds
      durC8.nanoseconds :=
  C8_display_single_space_padding (Stopwatch.create none 0) none none 0
    1000000007 9 durC8 swC8b (by rfl)

theorem resolveKey_ne_of_ne (a b : String) (hab : a ≠ b) :
    resolveKey (some b) ≠ resolveKey (some a) := by
  by_cases ha : a = ""
  · by_cases hb : b = ""
    · exact absurd (ha.trans hb.symm) (fun hh => hab hh)
    · simp [resolveKey, ha, hb]
  · by_cases hb : b = ""
    · simp [resolveKey, ha, hb]
    · simp [resolveKey, ha, hb]
      exact fun hh => hab hh.symm

/-- Claim C9: a `measure` call on named timer `a` leaves the state resolved
for any distinct name `b` (its base time-point, history and totals)
unchanged. -/
theorem C9_measure_isolation (sw : Stopwatch) (a b : String) (hab : a ≠ b)
    (label : Option String) (ts t1 t2 : Int) (d : Duration) (sw2 : Stopwatch)
    (h : sw.measure label (some a) ts t1 t2 = some (d, sw2)) :
    mapGet sw2.timers (resolveKey (some b))
      = mapGet sw.timers (resolveKey (some b)) := by
  obtain ⟨timer, r, hget, hsw2, hrt, hlab, hdt, hde⟩ :=
    measure_some_spec sw label (some a) ts t1 t2 d sw2 h
  rw [hsw2]
  show mapGet (mapSet sw.timers (resolveKey (some a))
      ⟨t2, timer.history ++ [r]⟩) (resolveKey (some b))
    = mapGet sw.timers (resolveKey (some b))
  exact mapGet_mapSet_ne sw.timers (resolveKey (some a))
    (resolveKey (some b)) _ (resolveKey_ne_of_ne a b hab)

/-- Stopwatch with named timers `a` and `b`, then a measurement on `a`. -/
def swC9 : Stopwatch :=
  ((Stopwatch.create none 0).start (some "a") 0).start (some "b") 0

def durC9 : Duration :=
  match swC9.measure none (some "a") 0 4 4 with
  | some p => p.1
  | none => dur0

def swC9b : Stopwatch :=
  match swC9.measure none (some "a") 0 4 4 with
  | some p => p.2
  | none => swC9

/-- Witness for C9: measuring `a` leaves `b`'s state untouched. -/
theorem C9_witness :
    mapGet swC9b.timers (resolveKey (some "b"))
      = mapGet swC9.timers (resolveKey (some "b")) :=
  C9_measure_isolation swC9 "a" "b" (by decide) none 0 4 4 durC9 swC9b (by rfl)

/-- Claim C10: `stop()` with no name never returns null — in every reachable
state it yields a duration record (the default timer always exists, so the
inner `measure` cannot return null), and afterwards the default timer still
exists with a fresh base and an empty history; repeated `stop()` calls
therefore each succeed again on the resulting state. -/
theorem C10_default_stop_succeeds (sw : Stopwatch) (hR : Reach sw)
    (ts t1 t2 t3 : Int) :
    ((sw.stop none ts t1 t2 t3).toOption.isSome = true)
  ∧ ((sw.stop none ts t1 t2 t3).toOption.map (fun p => mapGet p.2.timers none)
        = some (some ⟨t3, []⟩)) := by
  have h1 := Reach_default_isSome sw hR
  have hm : (sw.measure (some "stop") none ts t1 t2).isSome = true := by
    cases htm : mapGet sw.timers none with
    | none =>
      rw [htm] at h1
      simp at h1
    | some tm => simp [Stopwatch.measure, resolveKey, htm]
  cases hmo : sw.measure (some "stop") none ts t1 t2 with
  | none =>
    rw [hmo] at hm
    simp at hm
  | some p =>
    obtain ⟨m, sw1⟩ := p
    unfold Stopwatch.stop
    rw [hmo]
    refine ⟨rfl, ?_⟩
    show some (mapGet (sw1.remove none t3).timers none) = some (some ⟨t3, []⟩)
    rw [remove_none_timers, mapGet_mapSet_self]

/-- Witness for C10 on a fresh stopwatch at concrete clock readings. -/
theorem C10_witness :
    (((Stopwatch.create none 0).stop none 0 1 2 3).toOption.isSome = true)
  ∧ (((Stopwatch.create none 0).stop none 0 1 2 3).toOption.map
        (fun p => mapGet p.2.timers none) = some (some ⟨3, []⟩)) :=
  C10_default_stop_succeeds (Stopwatch.create none 0) (Reach.init none 0)
    0 1 2 3
